import Mathlib

/-!
Shallow embedding of the MCM_Config generator (`src/app.py`), centred on
`build_dataframe` (lines 9-80): the address-sequencing engine that walks
devices 1..N and blocks 1..M, maintains per-function running address state
(`prev_intaddr`, `prev_count`), and emits 8 parameter records per block.

Python's loosely typed config values (ints, strings, `None`) are modelled by
`PyVal`; Python dicts are modelled by association lists with `dictGet` /
`dictInsert`; exceptions (`IndexError` on a short node list, `KeyError` on a
missing block rule, `ValueError`/`TypeError` from `int(...)`) are modelled by
`Except Err`.
-/

set_option autoImplicit false

namespace MCM

/-- A dynamically typed Python value as it appears in the configuration
dictionaries and output rows: an int, a string, or `None`. -/
inductive PyVal where
  | int : Int → PyVal
  | str : String → PyVal
  | pynone : PyVal
deriving DecidableEq, Repr

/-- Python `str(v)` on the values that reach `func_id = str(func)` (line 39). -/
def pyStr : PyVal → String
  | .int n => toString n
  | .str s => s
  | .pynone => "None"

/-- Python `v == 0` for the normalized enable value (lines 35 and 58):
true exactly on the integer 0; any string or `None` compares unequal to 0. -/
def pyEqZero : PyVal → Bool
  | .int n => decide (n = 0)
  | _ => false

/-- Python `v == ""` (lines 58 and 68): true exactly on the empty string. -/
def pyEqEmptyStr : PyVal → Bool
  | .str s => decide (s = "")
  | _ => false

/-- Errors a run can raise, mirroring the Python exceptions. -/
inductive Err where
  | indexError : Err
  | keyError : Nat → Err
  | valueError : Err
  | typeError : Err
deriving DecidableEq, Repr

/-- Python `int(v)` on the values that reach line 68: the identity on ints,
base-10 parsing on strings (`ValueError` when unparsable), `TypeError` on
`None`. -/
def pyInt : PyVal → Except Err Int
  | .int n => .ok n
  | .str s =>
    match s.toInt? with
    | Option.some n => .ok n
    | Option.none => .error .valueError
  | .pynone => .error .typeError

/-- Python dict lookup `d.get(k)` over an association-list model. -/
def dictGet {α β : Type} [DecidableEq α] (k : α) : List (α × β) → Option β
  | [] => Option.none
  | (k', v) :: rest => if k' = k then Option.some v else dictGet k rest

/-- Python dict assignment `d[k] = v` over an association-list model. -/
def dictInsert {α β : Type} [DecidableEq α] (k : α) (v : β) :
    List (α × β) → List (α × β)
  | [] => [(k, v)]
  | (k', v') :: rest =>
    if k' = k then (k, v) :: rest else (k', v') :: dictInsert k v rest

/-- One entry of `block_rules`: the per-block dictionary with optional
`Enable`, `Func`, `DevAddress`, `Count` keys. -/
structure BlockRule where
  Enable : Option PyVal := Option.none
  Func : Option PyVal := Option.none
  DevAddress : Option PyVal := Option.none
  Count : Option PyVal := Option.none
deriving DecidableEq, Repr

/-- One entry of `func_rules`: `{"start": ..., "offset": ...}`. -/
structure FuncRule where
  start : Int
  offset : Int
deriving DecidableEq, Repr

/-- The per-function running state of one run: the `prev_intaddr` and
`prev_count` dicts created fresh at lines 23-24. -/
structure FState where
  prev_intaddr : List (String × Int)
  prev_count : List (String × Int)
deriving DecidableEq, Repr

/-- One output row (lines 70-76). -/
structure Record where
  device_no : Nat
  block_no : Nat
  node_no : Int
  parameter : String
  config_value : PyVal
deriving DecidableEq, Repr

/-- The eight field names of `param_template` (lines 10-19), in order. -/
def fieldNames : List String :=
  ["Enable", "IntAddress", "PollInt", "Count", "Swap", "Node", "Func", "DevAddress"]

/-- Formatting `p.format(i=idx)` of a template entry: the fully formatted parameter
name (line 43). The `base = param.split('.')[-1]` of line 44 recovers the
final component, so the embedding keeps template entries as their base
field name and formats with this function. -/
def mkParam (idx : Nat) (base : String) : String :=
  "MCM.CONFIG.Port1MasterCmd[" ++ toString idx ++ "]." ++ base

/-- Lines 33-34: `enable = rule.get("Enable", 0)` then
`enable = 0 if enable in ("", None) else enable`. -/
def normEnable (rule : BlockRule) : PyVal :=
  let e := rule.Enable.getD (.int 0)
  if e = .str "" ∨ e = .pynone then .int 0 else e

/-- Line 35: `func = rule.get("Func", "4") if enable != 0 else ""`. -/
def funcVal (rule : BlockRule) : PyVal :=
  if pyEqZero (normEnable rule) then .str "" else rule.Func.getD (.str "4")

/-- Line 36: `devaddr = rule.get("DevAddress", "") if enable != 0 else ""`. -/
def devaddrVal (rule : BlockRule) : PyVal :=
  if pyEqZero (normEnable rule) then .str "" else rule.DevAddress.getD (.str "")

/-- Line 37: `count = rule.get("Count", "") if enable != 0 else ""`. -/
def countVal (rule : BlockRule) : PyVal :=
  if pyEqZero (normEnable rule) then .str "" else rule.Count.getD (.str "")

/-- Line 68: `int(count) if count != "" else 0`. -/
def countInt (count : PyVal) : Except Err Int :=
  if pyEqEmptyStr count then .ok 0 else pyInt count

/-- Lines 61-66: the address computed for an enabled occurrence — the
function's `start` on its first occurrence in the run, otherwise the carried
`prev_intaddr + prev_count`, plus `offset` whenever `device_no > 1`. -/
def nextAddr (device_no : Nat) (func_conf : FuncRule) (func_id : String)
    (st : FState) : Int :=
  match dictGet func_id st.prev_intaddr with
  | Option.none => func_conf.start
  | Option.some p =>
    let a := p + ((dictGet func_id st.prev_count).getD 0)
    if 1 < device_no then a + func_conf.offset else a

/-- Lines 57-68: the `IntAddress` branch of the field loop — computes the
config value for the `IntAddress` record and the updated function state. -/
def intAddressStep (device_no : Nat) (enable func count : PyVal)
    (func_conf : FuncRule) (func_id : String) (st : FState) :
    Except Err (PyVal × FState) :=
  if pyEqZero enable || pyEqEmptyStr func then .ok (.str "", st)
  else
    let a := nextAddr device_no func_conf func_id st
    match countInt count with
    | .error e => .error e
    | .ok c =>
      .ok (.int a,
        ⟨dictInsert func_id a st.prev_intaddr, dictInsert func_id c st.prev_count⟩)

/-- Lines 30-76: processing of one (device, block) pair — normalizes the
block rule, resolves the function rule (defaulting to `{start:0, offset:10}`,
line 40), runs the `IntAddress` state step, and emits the block's 8 records
in template order. -/
def processBlock (device_no block_no : Nat) (node_no : Int) (idx : Nat)
    (rule : BlockRule) (func_rules : List (String × FuncRule)) (st : FState) :
    Except Err (List Record × FState) :=
  let enable := normEnable rule
  let func := funcVal rule
  let devaddr := devaddrVal rule
  let count := countVal rule
  let func_id := pyStr func
  let func_conf := (dictGet func_id func_rules).getD ⟨0, 10⟩
  match intAddressStep device_no enable func count func_conf func_id st with
  | .error e => .error e
  | .ok (ia, st') =>
    .ok ([⟨device_no, block_no, node_no, mkParam idx "Enable", enable⟩,
          ⟨device_no, block_no, node_no, mkParam idx "IntAddress", ia⟩,
          ⟨device_no, block_no, node_no, mkParam idx "PollInt", .str ""⟩,
          ⟨device_no, block_no, node_no, mkParam idx "Count", count⟩,
          ⟨device_no, block_no, node_no, mkParam idx "Swap", .str ""⟩,
          ⟨device_no, block_no, node_no, mkParam idx "Node", .int node_no⟩,
          ⟨device_no, block_no, node_no, mkParam idx "Func", func⟩,
          ⟨device_no, block_no, node_no, mkParam idx "DevAddress", devaddr⟩],
         st')

/-- The list `[s, s+1, ..., s+n-1]`, the embedding of `range(s, s+n)`. -/
def natsFrom (s : Nat) : Nat → List Nat
  | 0 => []
  | Nat.succ m => s :: natsFrom (s + 1) m

/-- Lines 29-78: the inner `for block_no in range(1, blocks + 1)` loop over
an explicit list of block ordinals, threading the global block index and the
function state. A missing block rule is line 31's `KeyError`. -/
def runBlocks (device_no : Nat) (node_no : Int)
    (block_rules : List (Nat × BlockRule)) (func_rules : List (String × FuncRule)) :
    List Nat → Nat → FState → Except Err (List Record × Nat × FState)
  | [], idx, st => .ok ([], idx, st)
  | b :: bs, idx, st =>
    match dictGet b block_rules with
    | Option.none => .error (.keyError b)
    | Option.some rule =>
      match processBlock device_no b node_no idx rule func_rules st with
      | .error e => .error e
      | .ok (recs, st') =>
        match runBlocks device_no node_no block_rules func_rules bs (idx + 1) st' with
        | .error e => .error e
        | .ok (recs', idx', st'') => .ok (recs ++ recs', idx', st'')

/-- Lines 26-78: the outer `for device_no in range(1, devices + 1)` loop.
Line 27's `node_seq[device_no - 1]` is the `IndexError` site when the node
list is shorter than the device count. -/
def runDevices (blocks : Nat) (node_seq : List Int)
    (block_rules : List (Nat × BlockRule)) (func_rules : List (String × FuncRule)) :
    List Nat → Nat → FState → Except Err (List Record × Nat × FState)
  | [], idx, st => .ok ([], idx, st)
  | d :: ds, idx, st =>
    match node_seq[d - 1]? with
    | Option.none => .error .indexError
    | Option.some node_no =>
      match runBlocks d node_no block_rules func_rules (natsFrom 1 blocks) idx st with
      | .error e => .error e
      | .ok (recs, idx', st') =>
        match runDevices blocks node_seq block_rules func_rules ds idx' st' with
        | .error e => .error e
        | .ok (recs', idx'', st'') => .ok (recs ++ recs', idx'', st'')

set_option linter.unusedVariables false in
/-- Lines 9-80: `build_dataframe(devices, blocks, rows_per_block, node_seq,
func_rules, block_rules)`. `rows_per_block` is accepted and unused, exactly
as in the source. The function state starts fresh (lines 21-24). -/
def build_dataframe (devices blocks rows_per_block : Nat) (node_seq : List Int)
    (func_rules : List (String × FuncRule)) (block_rules : List (Nat × BlockRule)) :
    Except Err (List Record) :=
  match runDevices blocks node_seq block_rules func_rules
      (natsFrom 1 devices) 0 ⟨[], []⟩ with
  | .error e => .error e
  | .ok (rows, _, _) => .ok rows

/-! ### Association-list dictionary lemmas -/

theorem dictGet_dictInsert_self {α β : Type} [DecidableEq α] (k : α) (v : β)
    (l : List (α × β)) : dictGet k (dictInsert k v l) = Option.some v := by
  induction l with
  | nil => simp [dictGet, dictInsert]
  | cons hd tl ih =>
    obtain ⟨k', v'⟩ := hd
    by_cases h : k' = k
    · subst h
      simp [dictGet, dictInsert]
    · simp [dictGet, dictInsert, h, ih]

theorem dictGet_dictInsert_ne {α β : Type} [DecidableEq α] {k k' : α} (v : β)
    (l : List (α × β)) (h : k' ≠ k) :
    dictGet k' (dictInsert k v l) = dictGet k' l := by
  induction l with
  | nil => simp [dictGet, dictInsert, Ne.symm h]
  | cons hd tl ih =>
    obtain ⟨k₀, v₀⟩ := hd
    by_cases h₀ : k₀ = k
    · subst h₀
      simp [dictGet, dictInsert, Ne.symm h]
    · simp [dictGet, dictInsert, h₀, ih]

/-! ### `natsFrom` lemmas -/

theorem length_natsFrom (s n : Nat) : (natsFrom s n).length = n := by
  induction n generalizing s with
  | zero => rfl
  | succ m ih => simp [natsFrom, ih]

theorem mem_natsFrom {x : Nat} (s n : Nat) :
    x ∈ natsFrom s n ↔ s ≤ x ∧ x < s + n := by
  induction n generalizing s with
  | zero => simp [natsFrom]
  | succ m ih =>
    simp only [natsFrom, List.mem_cons, ih]
    omega

/-! ### `processBlock` case analysis -/

/-- An inert block (disabled, or enabled with the empty function id) emits
its 8 records with an empty `IntAddress` and leaves the state untouched. -/
theorem processBlock_inert (device_no block_no : Nat) (node_no : Int) (idx : Nat)
    (rule : BlockRule) (func_rules : List (String × FuncRule)) (st : FState)
    (h : (pyEqZero (normEnable rule) || pyEqEmptyStr (funcVal rule)) = true) :
    processBlock device_no block_no node_no idx rule func_rules st =
      .ok ([⟨device_no, block_no, node_no, mkParam idx "Enable", normEnable rule⟩,
            ⟨device_no, block_no, node_no, mkParam idx "IntAddress", .str ""⟩,
            ⟨device_no, block_no, node_no, mkParam idx "PollInt", .str ""⟩,
            ⟨device_no, block_no, node_no, mkParam idx "Count", countVal rule⟩,
            ⟨device_no, block_no, node_no, mkParam idx "Swap", .str ""⟩,
            ⟨device_no, block_no, node_no, mkParam idx "Node", .int node_no⟩,
            ⟨device_no, block_no, node_no, mkParam idx "Func", funcVal rule⟩,
            ⟨device_no, block_no, node_no, mkParam idx "DevAddress", devaddrVal rule⟩],
           st) := by
  simp [processBlock, intAddressStep, h]

/-- An active block (enabled with a nonempty function id) whose count value
converts, emits its 8 records with `IntAddress` given by `nextAddr` and
updates the state at its function id. -/
theorem processBlock_active (device_no block_no : Nat) (node_no : Int) (idx : Nat)
    (rule : BlockRule) (func_rules : List (String × FuncRule)) (st : FState)
    (c : Int)
    (hE : pyEqZero (normEnable rule) = false)
    (hF : pyEqEmptyStr (funcVal rule) = false)
    (hC : countInt (countVal rule) = .ok c) :
    processBlock device_no block_no node_no idx rule func_rules st =
      .ok ([⟨device_no, block_no, node_no, mkParam idx "Enable", normEnable rule⟩,
            ⟨device_no, block_no, node_no, mkParam idx "IntAddress",
              .int (nextAddr device_no
                ((dictGet (pyStr (funcVal rule)) func_rules).getD ⟨0, 10⟩)
                (pyStr (funcVal rule)) st)⟩,
            ⟨device_no, block_no, node_no, mkParam idx "PollInt", .str ""⟩,
            ⟨device_no, block_no, node_no, mkParam idx "Count", countVal rule⟩,
            ⟨device_no, block_no, node_no, mkParam idx "Swap", .str ""⟩,
            ⟨device_no, block_no, node_no, mkParam idx "Node", .int node_no⟩,
            ⟨device_no, block_no, node_no, mkParam idx "Func", funcVal rule⟩,
            ⟨device_no, block_no, node_no, mkParam idx "DevAddress", devaddrVal rule⟩],
           ⟨dictInsert (pyStr (funcVal rule))
              (nextAddr device_no
                ((dictGet (pyStr (funcVal rule)) func_rules).getD ⟨0, 10⟩)
                (pyStr (funcVal rule)) st) st.prev_intaddr,
            dictInsert (pyStr (funcVal rule)) c st.prev_count⟩) := by
  simp [processBlock, intAddressStep, hE, hF, hC]

/-- An active block whose count value fails to convert raises that error. -/
theorem processBlock_active_error (device_no block_no : Nat) (node_no : Int)
    (idx : Nat) (rule : BlockRule) (func_rules : List (String × FuncRule))
    (st : FState) (e : Err)
    (hE : pyEqZero (normEnable rule) = false)
    (hF : pyEqEmptyStr (funcVal rule) = false)
    (hC : countInt (countVal rule) = .error e) :
    processBlock device_no block_no node_no idx rule func_rules st = .error e := by
  simp [processBlock, intAddressStep, hE, hF, hC]

/-- Any successful `processBlock` yields exactly the 8 template parameters
formatted at the block's global index, in template order. -/
theorem processBlock_params (device_no block_no : Nat) (node_no : Int) (idx : Nat)
    (rule : BlockRule) (func_rules : List (String × FuncRule)) (st : FState)
    (recs : List Record) (st' : FState)
    (h : processBlock device_no block_no node_no idx rule func_rules st =
      .ok (recs, st')) :
    recs.map (fun r => r.parameter) = fieldNames.map (mkParam idx) := by
  cases hI : intAddressStep device_no (normEnable rule) (funcVal rule)
      (countVal rule)
      ((dictGet (pyStr (funcVal rule)) func_rules).getD ⟨0, 10⟩)
      (pyStr (funcVal rule)) st with
  | error e =>
    simp only [processBlock, hI] at h
    exact absurd h (by simp)
  | ok p =>
    obtain ⟨ia, st''⟩ := p
    simp only [processBlock, hI, Except.ok.injEq, Prod.mk.injEq] at h
    rw [← h.1]
    simp [fieldNames]

/-! ### Global block index characterization -/

/-- The full parameter-name sequence of `n` consecutive blocks whose global
block indices start at `s`: 8 template names per block, in template order. -/
def paramsFrom (s : Nat) : Nat → List String
  | 0 => []
  | Nat.succ m => fieldNames.map (mkParam s) ++ paramsFrom (s + 1) m

theorem paramsFrom_add (s m n : Nat) :
    paramsFrom s (m + n) = paramsFrom s m ++ paramsFrom (s + m) n := by
  induction m generalizing s with
  | zero => simp [paramsFrom]
  | succ k ih =>
    have h1 : k + 1 + n = (k + n) + 1 := by omega
    rw [h1]
    simp only [paramsFrom]
    rw [ih (s + 1)]
    have h2 : s + 1 + k = s + (k + 1) := by omega
    rw [h2, List.append_assoc]

theorem length_paramsFrom (s n : Nat) : (paramsFrom s n).length = 8 * n := by
  induction n generalizing s with
  | zero => rfl
  | succ k ih =>
    simp only [paramsFrom, List.length_append, List.length_map, ih]
    simp [fieldNames]
    omega

/-- Successful block-loop runs emit exactly the template parameters of
consecutive global block indices starting at the incoming index, and advance
the index by the number of blocks. -/
theorem runBlocks_spec (device_no : Nat) (node_no : Int)
    (block_rules : List (Nat × BlockRule)) (func_rules : List (String × FuncRule))
    (bs : List Nat) :
    ∀ (idx : Nat) (st : FState) (recs : List Record) (idx' : Nat) (st' : FState),
    runBlocks device_no node_no block_rules func_rules bs idx st =
      .ok (recs, idx', st') →
    recs.map (fun r => r.parameter) = paramsFrom idx bs.length ∧
      idx' = idx + bs.length := by
  induction bs with
  | nil =>
    intro idx st recs idx' st' h
    simp only [runBlocks, Except.ok.injEq, Prod.mk.injEq] at h
    obtain ⟨h1, h2, h3⟩ := h
    subst h1; subst h2
    simp [paramsFrom]
  | cons b bs ih =>
    intro idx st recs idx' st' h
    cases hR : dictGet b block_rules with
    | none =>
      simp only [runBlocks, hR] at h
      exact Except.noConfusion h
    | some rule =>
      cases hP : processBlock device_no b node_no idx rule func_rules st with
      | error e =>
        simp only [runBlocks, hR, hP] at h
        exact Except.noConfusion h
      | ok p =>
        obtain ⟨recs₁, st₁⟩ := p
        cases hT : runBlocks device_no node_no block_rules func_rules bs (idx + 1) st₁ with
        | error e =>
          simp only [runBlocks, hR, hP, hT] at h
          exact Except.noConfusion h
        | ok q =>
          obtain ⟨recs₂, idx₂, st₂⟩ := q
          simp only [runBlocks, hR, hP, hT, Except.ok.injEq, Prod.mk.injEq] at h
          obtain ⟨h1, h2, h3⟩ := h
          subst h1; subst h2
          obtain ⟨ihm, ihi⟩ := ih (idx + 1) st₁ recs₂ idx₂ st₂ hT
          constructor
          · simp only [List.map_append, List.length_cons]
            rw [processBlock_params device_no b node_no idx rule func_rules st recs₁ st₁ hP,
              ihm]
            have h4 : bs.length + 1 = 1 + bs.length := by omega
            rw [h4, paramsFrom_add idx 1 bs.length]
            simp [paramsFrom]
          · simp only [List.length_cons]
            omega

/-- Successful device-loop runs emit the template parameters of
`ds.length * blocks` consecutive blocks starting at the incoming index. -/
theorem runDevices_spec (blocks : Nat) (node_seq : List Int)
    (block_rules : List (Nat × BlockRule)) (func_rules : List (String × FuncRule))
    (ds : List Nat) :
    ∀ (idx : Nat) (st : FState) (recs : List Record) (idx' : Nat) (st' : FState),
    runDevices blocks node_seq block_rules func_rules ds idx st =
      .ok (recs, idx', st') →
    recs.map (fun r => r.parameter) = paramsFrom idx (ds.length * blocks) ∧
      idx' = idx + ds.length * blocks := by
  induction ds with
  | nil =>
    intro idx st recs idx' st' h
    simp only [runDevices, Except.ok.injEq, Prod.mk.injEq] at h
    obtain ⟨h1, h2, h3⟩ := h
    subst h1; subst h2
    simp [paramsFrom]
  | cons d ds ih =>
    intro idx st recs idx' st' h
    cases hN : node_seq[d - 1]? with
    | none =>
      simp only [runDevices, hN] at h
      exact Except.noConfusion h
    | some node_no =>
      cases hB : runBlocks d node_no block_rules func_rules (natsFrom 1 blocks) idx st with
      | error e =>
        simp only [runDevices, hN, hB] at h
        exact Except.noConfusion h
      | ok p =>
        obtain ⟨recs₁, idx₁, st₁⟩ := p
        cases hT : runDevices blocks node_seq block_rules func_rules ds idx₁ st₁ with
        | error e =>
          simp only [runDevices, hN, hB, hT] at h
          exact Except.noConfusion h
        | ok q =>
          obtain ⟨recs₂, idx₂, st₂⟩ := q
          simp only [runDevices, hN, hB, hT, Except.ok.injEq, Prod.mk.injEq] at h
          obtain ⟨h1, h2, h3⟩ := h
          subst h1; subst h2
          obtain ⟨hbm, hbi⟩ := runBlocks_spec d node_no block_rules func_rules
            (natsFrom 1 blocks) idx st recs₁ idx₁ st₁ hB
          obtain ⟨ihm, ihi⟩ := ih idx₁ st₁ recs₂ idx₂ st₂ hT
          rw [length_natsFrom] at hbm hbi
          subst hbi
          constructor
          · simp only [List.map_append, List.length_cons]
            rw [hbm, ihm]
            have h4 : (ds.length + 1) * blocks = blocks + ds.length * blocks := by ring
            rw [h4, paramsFrom_add idx blocks (ds.length * blocks)]
          · simp only [List.length_cons]
            ring_nf
            omega

/-! ### Occurrence traces of the address stream -/

/-- The integer that line 68 stores in `prev_count`, recovered from the
rendered `Count` value of a block. -/
def cntOf (v : PyVal) : Int :=
  if pyEqEmptyStr v then 0 else ((pyInt v).toOption).getD 0

/-- The 8-record blocks of an output row list, in order. -/
def chunk8 : List Record → List (List Record)
  | r0 :: r1 :: r2 :: r3 :: r4 :: r5 :: r6 :: r7 :: rest =>
    [r0, r1, r2, r3, r4, r5, r6, r7] :: chunk8 rest
  | [] => []
  | l => [l]

/-- The occurrence one 8-record block contributes to function `f`'s address
stream — its device ordinal, its computed `IntAddress`, and the count stored
into `prev_count` — or `none` when the block consumes no address of `f`
(disabled, empty function id, or a different function id). -/
def chunkOcc (f : String) (chunk : List Record) : Option (Nat × Int × Int) :=
  match chunk[1]?, chunk[3]?, chunk[6]? with
  | Option.some ia, Option.some cc, Option.some fc =>
    if pyStr fc.config_value = f then
      match ia.config_value with
      | .int a => Option.some (ia.device_no, a, cntOf cc.config_value)
      | _ => Option.none
    else Option.none
  | _, _, _ => Option.none

/-- Function `f`'s occurrence stream across an output row list. -/
def occList (f : String) (rows : List Record) : List (Nat × Int × Int) :=
  (chunk8 rows).filterMap (chunkOcc f)

/-- The address the engine computes for an occurrence, as a function of the
carried (address, count) pair — the function's `start` when it is unseen,
otherwise address + count, plus `offset` exactly when `device_no > 1`. -/
def chainStep (conf : FuncRule) (prev : Option (Int × Int)) (d : Nat) : Int :=
  match prev with
  | Option.none => conf.start
  | Option.some pc => if 1 < d then pc.1 + pc.2 + conf.offset else pc.1 + pc.2

/-- The per-function view of the running state: the carried (address, count)
pair of `f`, or `none` when `f` is unseen. -/
def stTrack (f : String) (st : FState) : Option (Int × Int) :=
  (dictGet f st.prev_intaddr).map (fun a => (a, (dictGet f st.prev_count).getD 0))

/-- The carried (address, count) pair left after a list of occurrences. -/
def trackAfter (prev : Option (Int × Int)) :
    List (Nat × Int × Int) → Option (Int × Int)
  | [] => prev
  | occ :: rest => trackAfter (Option.some (occ.2.1, occ.2.2)) rest

/-- The chain law of an occurrence stream: every occurrence's address is
`chainStep` of the carried pair, which the occurrence then replaces. -/
def occChain (conf : FuncRule) : Option (Int × Int) → List (Nat × Int × Int) → Prop
  | _, [] => True
  | prev, occ :: rest =>
    occ.2.1 = chainStep conf prev occ.1 ∧
      occChain conf (Option.some (occ.2.1, occ.2.2)) rest

theorem nextAddr_eq_chainStep (device_no : Nat) (conf : FuncRule) (f : String)
    (st : FState) :
    nextAddr device_no conf f st = chainStep conf (stTrack f st) device_no := by
  unfold nextAddr stTrack chainStep
  cases dictGet f st.prev_intaddr with
  | none => rfl
  | some p => simp

theorem cntOf_of_countInt {v : PyVal} {c : Int} (h : countInt v = .ok c) :
    cntOf v = c := by
  unfold countInt at h
  unfold cntOf
  by_cases he : pyEqEmptyStr v = true
  · simp [he] at h ⊢
    omega
  · simp only [Bool.not_eq_true] at he
    simp [he] at h ⊢
    simp [h, Except.toOption]

theorem chunk8_append_of_len8 (l rest : List Record) (h : l.length = 8) :
    chunk8 (l ++ rest) = l :: chunk8 rest := by
  cases l with
  | nil => simp at h
  | cons r0 l =>
  cases l with
  | nil => simp at h
  | cons r1 l =>
  cases l with
  | nil => simp at h
  | cons r2 l =>
  cases l with
  | nil => simp at h
  | cons r3 l =>
  cases l with
  | nil => simp at h
  | cons r4 l =>
  cases l with
  | nil => simp at h
  | cons r5 l =>
  cases l with
  | nil => simp at h
  | cons r6 l =>
  cases l with
  | nil => simp at h
  | cons r7 l =>
  cases l with
  | cons r8 l => simp at h
  | nil => simp [chunk8]

theorem chunk8_append_mul8 (m : Nat) :
    ∀ (l rest : List Record), l.length = 8 * m →
    chunk8 (l ++ rest) = chunk8 l ++ chunk8 rest := by
  induction m with
  | zero =>
    intro l rest h
    have hl : l = [] := List.eq_nil_of_length_eq_zero (by omega)
    subst hl
    simp [chunk8]
  | succ k ih =>
    intro l rest h
    have h8 : (l.take 8).length = 8 := by
      simp only [List.length_take]
      omega
    have hd : (l.drop 8).length = 8 * k := by
      simp only [List.length_drop]
      omega
    calc chunk8 (l ++ rest)
        = chunk8 ((l.take 8 ++ l.drop 8) ++ rest) := by rw [List.take_append_drop]
      _ = chunk8 (l.take 8 ++ (l.drop 8 ++ rest)) := by rw [List.append_assoc]
      _ = l.take 8 :: chunk8 (l.drop 8 ++ rest) := chunk8_append_of_len8 _ _ h8
      _ = l.take 8 :: (chunk8 (l.drop 8) ++ chunk8 rest) := by rw [ih _ _ hd]
      _ = (l.take 8 :: chunk8 (l.drop 8)) ++ chunk8 rest := rfl
      _ = chunk8 (l.take 8 ++ l.drop 8) ++ chunk8 rest := by
            rw [chunk8_append_of_len8 _ _ h8]
      _ = chunk8 l ++ chunk8 rest := by rw [List.take_append_drop]

theorem trackAfter_append (prev : Option (Int × Int))
    (l₁ l₂ : List (Nat × Int × Int)) :
    trackAfter prev (l₁ ++ l₂) = trackAfter (trackAfter prev l₁) l₂ := by
  induction l₁ generalizing prev with
  | nil => rfl
  | cons o l₁ ih => simp [trackAfter, ih]

theorem occChain_append (conf : FuncRule) (prev : Option (Int × Int))
    (l₁ l₂ : List (Nat × Int × Int)) (h₁ : occChain conf prev l₁)
    (h₂ : occChain conf (trackAfter prev l₁) l₂) :
    occChain conf prev (l₁ ++ l₂) := by
  induction l₁ generalizing prev with
  | nil => exact h₂
  | cons o l₁ ih =>
    obtain ⟨ha, hrest⟩ := h₁
    exact ⟨ha, ih _ hrest h₂⟩

theorem processBlock_len (device_no block_no : Nat) (node_no : Int) (idx : Nat)
    (rule : BlockRule) (func_rules : List (String × FuncRule)) (st : FState)
    (recs : List Record) (st' : FState)
    (h : processBlock device_no block_no node_no idx rule func_rules st =
      .ok (recs, st')) : recs.length = 8 := by
  have hm := congrArg List.length
    (processBlock_params device_no block_no node_no idx rule func_rules st recs st' h)
  simpa [fieldNames] using hm

/-- What one block contributes to function `f`'s occurrence stream: nothing
(state untouched), or exactly one occurrence at the current device whose
address is `chainStep` of the carried pair, which it then replaces. -/
theorem processBlock_occ (device_no block_no : Nat) (node_no : Int) (idx : Nat)
    (rule : BlockRule) (func_rules : List (String × FuncRule)) (st : FState)
    (recs : List Record) (st' : FState) (f : String)
    (h : processBlock device_no block_no node_no idx rule func_rules st =
      .ok (recs, st')) :
    (chunkOcc f recs = Option.none ∧ stTrack f st' = stTrack f st) ∨
    (∃ c : Int,
      chunkOcc f recs = Option.some (device_no,
        chainStep ((dictGet f func_rules).getD ⟨0, 10⟩) (stTrack f st) device_no, c) ∧
      stTrack f st' = Option.some
        (chainStep ((dictGet f func_rules).getD ⟨0, 10⟩) (stTrack f st) device_no,
         c)) := by
  by_cases hg : (pyEqZero (normEnable rule) || pyEqEmptyStr (funcVal rule)) = true
  · rw [processBlock_inert device_no block_no node_no idx rule func_rules st hg] at h
    simp only [Except.ok.injEq, Prod.mk.injEq] at h
    obtain ⟨h1, h2⟩ := h
    subst h2
    left
    refine ⟨?_, rfl⟩
    rw [← h1]
    simp [chunkOcc]
  · simp only [Bool.or_eq_true, not_or, Bool.not_eq_true] at hg
    obtain ⟨hE, hF⟩ := hg
    cases hC : countInt (countVal rule) with
    | error e =>
      rw [processBlock_active_error device_no block_no node_no idx rule func_rules
        st e hE hF hC] at h
      exact Except.noConfusion h
    | ok c =>
      rw [processBlock_active device_no block_no node_no idx rule func_rules
        st c hE hF hC] at h
      simp only [Except.ok.injEq, Prod.mk.injEq] at h
      obtain ⟨h1, h2⟩ := h
      subst h2
      by_cases hf : pyStr (funcVal rule) = f
      · subst hf
        right
        refine ⟨c, ?_, ?_⟩
        · rw [← h1]
          simp [chunkOcc, nextAddr_eq_chainStep, cntOf_of_countInt hC]
        · simp [stTrack, dictGet_dictInsert_self, nextAddr_eq_chainStep]
      · left
        constructor
        · rw [← h1]
          simp [chunkOcc, hf]
        · simp [stTrack, dictGet_dictInsert_ne _ _ (Ne.symm hf)]

/-- Function `f`'s occurrence stream across one device's block loop obeys
the chain law, starting from the carried state, and the final state carries
the stream's last (address, count) pair. -/
theorem runBlocks_chain (device_no : Nat) (node_no : Int)
    (block_rules : List (Nat × BlockRule)) (func_rules : List (String × FuncRule))
    (f : String) (bs : List Nat) :
    ∀ (idx : Nat) (st : FState) (recs : List Record) (idx' : Nat) (st' : FState),
    runBlocks device_no node_no block_rules func_rules bs idx st =
      .ok (recs, idx', st') →
    occChain ((dictGet f func_rules).getD ⟨0, 10⟩) (stTrack f st) (occList f recs) ∧
      trackAfter (stTrack f st) (occList f recs) = stTrack f st' := by
  induction bs with
  | nil =>
    intro idx st recs idx' st' h
    simp only [runBlocks, Except.ok.injEq, Prod.mk.injEq] at h
    obtain ⟨h1, h2, h3⟩ := h
    subst h1; subst h3
    simp [occList, chunk8, occChain, trackAfter]
  | cons b bs ih =>
    intro idx st recs idx' st' h
    cases hR : dictGet b block_rules with
    | none =>
      simp only [runBlocks, hR] at h
      exact Except.noConfusion h
    | some rule =>
      cases hP : processBlock device_no b node_no idx rule func_rules st with
      | error e =>
        simp only [runBlocks, hR, hP] at h
        exact Except.noConfusion h
      | ok p =>
        obtain ⟨recs₁, st₁⟩ := p
        cases hT : runBlocks device_no node_no block_rules func_rules bs (idx + 1) st₁ with
        | error e =>
          simp only [runBlocks, hR, hP, hT] at h
          exact Except.noConfusion h
        | ok q =>
          obtain ⟨recs₂, idx₂, st₂⟩ := q
          simp only [runBlocks, hR, hP, hT, Except.ok.injEq, Prod.mk.injEq] at h
          obtain ⟨h1, h2, h3⟩ := h
          subst h1; subst h3
          have hsplit : chunk8 (recs₁ ++ recs₂) = recs₁ :: chunk8 recs₂ :=
            chunk8_append_of_len8 recs₁ recs₂
              (processBlock_len device_no b node_no idx rule func_rules st recs₁ st₁ hP)
          obtain ⟨iha, ihb⟩ := ih (idx + 1) st₁ recs₂ idx₂ st₂ hT
          cases processBlock_occ device_no b node_no idx rule func_rules st
              recs₁ st₁ f hP with
          | inl hnone =>
            obtain ⟨hocc, hst⟩ := hnone
            rw [hst] at iha ihb
            constructor
            · simpa [occList, hsplit, List.filterMap_cons, hocc] using iha
            · simpa [occList, hsplit, List.filterMap_cons, hocc] using ihb
          | inr hsome =>
            obtain ⟨c, hocc, hst⟩ := hsome
            rw [hst] at iha ihb
            constructor
            · simp only [occList, hsplit, List.filterMap_cons, hocc]
              exact ⟨rfl, iha⟩
            · simpa [occList, hsplit, List.filterMap_cons, hocc, trackAfter] using ihb

/-- Length of one device's emitted records. -/
theorem runBlocks_len (device_no : Nat) (node_no : Int)
    (block_rules : List (Nat × BlockRule)) (func_rules : List (String × FuncRule))
    (bs : List Nat) (idx : Nat) (st : FState) (recs : List Record) (idx' : Nat)
    (st' : FState)
    (h : runBlocks device_no node_no block_rules func_rules bs idx st =
      .ok (recs, idx', st')) : recs.length = 8 * bs.length := by
  have hm := congrArg List.length
    (runBlocks_spec device_no node_no block_rules func_rules bs idx st recs idx' st' h).1
  simpa [length_paramsFrom] using hm

/-- Function `f`'s occurrence stream across the whole device loop obeys the
chain law from the carried state. -/
theorem runDevices_chain (blocks : Nat) (node_seq : List Int)
    (block_rules : List (Nat × BlockRule)) (func_rules : List (String × FuncRule))
    (f : String) (ds : List Nat) :
    ∀ (idx : Nat) (st : FState) (recs : List Record) (idx' : Nat) (st' : FState),
    runDevices blocks node_seq block_rules func_rules ds idx st =
      .ok (recs, idx', st') →
    occChain ((dictGet f func_rules).getD ⟨0, 10⟩) (stTrack f st) (occList f recs) ∧
      trackAfter (stTrack f st) (occList f recs) = stTrack f st' := by
  induction ds with
  | nil =>
    intro idx st recs idx' st' h
    simp only [runDevices, Except.ok.injEq, Prod.mk.injEq] at h
    obtain ⟨h1, h2, h3⟩ := h
    subst h1; subst h3
    simp [occList, chunk8, occChain, trackAfter]
  | cons d ds ih =>
    intro idx st recs idx' st' h
    cases hN : node_seq[d - 1]? with
    | none =>
      simp only [runDevices, hN] at h
      exact Except.noConfusion h
    | some node_no =>
      cases hB : runBlocks d node_no block_rules func_rules (natsFrom 1 blocks) idx st with
      | error e =>
        simp only [runDevices, hN, hB] at h
        exact Except.noConfusion h
      | ok p =>
        obtain ⟨recs₁, idx₁, st₁⟩ := p
        cases hT : runDevices blocks node_seq block_rules func_rules ds idx₁ st₁ with
        | error e =>
          simp only [runDevices, hN, hB, hT] at h
          exact Except.noConfusion h
        | ok q =>
          obtain ⟨recs₂, idx₂, st₂⟩ := q
          simp only [runDevices, hN, hB, hT, Except.ok.injEq, Prod.mk.injEq] at h
          obtain ⟨h1, h2, h3⟩ := h
          subst h1; subst h3
          have hlen : recs₁.length = 8 * (natsFrom 1 blocks).length :=
            runBlocks_len d node_no block_rules func_rules (natsFrom 1 blocks)
              idx st recs₁ idx₁ st₁ hB
          have hsplit : chunk8 (recs₁ ++ recs₂) = chunk8 recs₁ ++ chunk8 recs₂ :=
            chunk8_append_mul8 (natsFrom 1 blocks).length recs₁ recs₂ hlen
          obtain ⟨hba, hbb⟩ := runBlocks_chain d node_no block_rules func_rules f
            (natsFrom 1 blocks) idx st recs₁ idx₁ st₁ hB
          obtain ⟨iha, ihb⟩ := ih idx₁ st₁ recs₂ idx₂ st₂ hT
          rw [← hbb] at iha ihb
          have hoccsplit : occList f (recs₁ ++ recs₂) =
              occList f recs₁ ++ occList f recs₂ := by
            simp [occList, hsplit, List.filterMap_append]
          constructor
          · rw [hoccsplit]
            exact occChain_append _ _ _ _ hba iha
          · rw [hoccsplit, trackAfter_append]
            exact ihb

theorem build_dataframe_ok_elim (devices blocks rows_per_block : Nat)
    (node_seq : List Int) (func_rules : List (String × FuncRule))
    (block_rules : List (Nat × BlockRule)) (rows : List Record)
    (h : build_dataframe devices blocks rows_per_block node_seq func_rules
      block_rules = .ok rows) :
    ∃ idx' st', runDevices blocks node_seq block_rules func_rules
      (natsFrom 1 devices) 0 ⟨[], []⟩ = .ok (rows, idx', st') := by
  cases hRD : runDevices blocks node_seq block_rules func_rules
      (natsFrom 1 devices) 0 ⟨[], []⟩ with
  | error e =>
    simp only [build_dataframe, hRD] at h
    exact Except.noConfusion h
  | ok p =>
    obtain ⟨rows', idx', st'⟩ := p
    simp only [build_dataframe, hRD, Except.ok.injEq] at h
    subst h
    exact ⟨idx', st', rfl⟩

theorem occChain_get_zero (conf : FuncRule) (prev : Option (Int × Int))
    (l : List (Nat × Int × Int)) (d : Nat) (a c : Int)
    (h : occChain conf prev l) (h0 : l[0]? = Option.some (d, a, c)) :
    a = chainStep conf prev d := by
  cases l with
  | nil => simp at h0
  | cons o t =>
    simp only [List.getElem?_cons_zero, Option.some.injEq] at h0
    subst h0
    exact h.1

theorem occChain_adjacent (conf : FuncRule) (l : List (Nat × Int × Int)) :
    ∀ (prev : Option (Int × Int)) (k d₁ d₂ : Nat) (a₁ a₂ c₁ c₂ : Int),
    occChain conf prev l → l[k]? = Option.some (d₁, a₁, c₁) →
    l[k + 1]? = Option.some (d₂, a₂, c₂) →
    a₂ = chainStep conf (Option.some (a₁, c₁)) d₂ := by
  induction l with
  | nil =>
    intro prev k d₁ d₂ a₁ a₂ c₁ c₂ h h1 h2
    simp at h1
  | cons o t ih =>
    intro prev k d₁ d₂ a₁ a₂ c₁ c₂ h h1 h2
    cases k with
    | zero =>
      simp only [List.getElem?_cons_zero, Option.some.injEq] at h1
      subst h1
      have h2' : t[0]? = Option.some (d₂, a₂, c₂) := by simpa using h2
      exact occChain_get_zero conf _ t d₂ a₂ c₂ h.2 h2'
    | succ k =>
      have h1' : t[k]? = Option.some (d₁, a₁, c₁) := by simpa using h1
      have h2' : t[k + 1]? = Option.some (d₂, a₂, c₂) := by simpa using h2
      exact ih (Option.some (o.2.1, o.2.2)) k d₁ d₂ a₁ a₂ c₁ c₂ h.2 h1' h2'

/-- The occurrence stream of any function across a whole successful run
obeys the chain law from the unseen state. -/
theorem build_dataframe_chain (devices blocks rows_per_block : Nat)
    (node_seq : List Int) (func_rules : List (String × FuncRule))
    (block_rules : List (Nat × BlockRule)) (rows : List Record) (f : String)
    (h : build_dataframe devices blocks rows_per_block node_seq func_rules
      block_rules = .ok rows) :
    occChain ((dictGet f func_rules).getD ⟨0, 10⟩) Option.none (occList f rows) := by
  obtain ⟨idx', st', hRD⟩ := build_dataframe_ok_elim devices blocks rows_per_block
    node_seq func_rules block_rules rows h
  have hchain := (runDevices_chain blocks node_seq block_rules func_rules f
    (natsFrom 1 devices) 0 ⟨[], []⟩ rows idx' st' hRD).1
  simpa [stTrack, dictGet] using hchain

/-! ### Success and failure of whole runs -/

/-- A block rule whose `Count` value survives line 68's `int(...)`. -/
def countOk (r : BlockRule) : Bool :=
  match r.Count with
  | Option.none => true
  | Option.some (.int _) => true
  | Option.some (.str s) => decide (s = "") || (s.toInt?).isSome
  | Option.some .pynone => false

/-- A block rule typed as §6 of the spec demands: `enable ∈ {0,1,2}` as an
int, `func` a string, `count` a non-negative int. -/
def wellTypedRule (r : BlockRule) : Bool :=
  (match r.Enable with
   | Option.some (.int e) => decide (0 ≤ e ∧ e ≤ 2)
   | _ => false) &&
  (match r.Func with
   | Option.some (.str _) => true
   | _ => false) &&
  (match r.Count with
   | Option.some (.int n) => decide (0 ≤ n)
   | _ => false)

/-- Valid inputs in the sense of the spec's §6 external interface: the node
list's length equals the device count and every block ordinal `1..blocks`
has a well-typed rule. -/
def validInputs (devices blocks : Nat) (node_seq : List Int)
    (block_rules : List (Nat × BlockRule)) : Bool :=
  decide (node_seq.length = devices) &&
  (natsFrom 1 blocks).all (fun b =>
    match dictGet b block_rules with
    | Option.some r => wellTypedRule r
    | Option.none => false)

theorem countInt_ok_of_countOk (r : BlockRule) (hc : countOk r = true) :
    ∃ c : Int, countInt (countVal r) = .ok c := by
  by_cases he : pyEqZero (normEnable r) = true
  · exact ⟨0, by simp [countVal, he, countInt, pyEqEmptyStr]⟩
  · simp only [Bool.not_eq_true] at he
    unfold countVal
    rw [he]
    simp only [Bool.false_eq_true, if_false]
    unfold countOk at hc
    cases hr : r.Count with
    | none => exact ⟨0, by simp [countInt, pyEqEmptyStr]⟩
    | some v =>
      rw [hr] at hc
      cases v with
      | int n => exact ⟨n, by simp [countInt, pyEqEmptyStr, pyInt]⟩
      | str s =>
        simp only [Bool.or_eq_true, decide_eq_true_eq, Option.isSome_iff_exists] at hc
        cases hc with
        | inl hs => exact ⟨0, by simp [countInt, pyEqEmptyStr, hs]⟩
        | inr hs =>
          obtain ⟨n, hn⟩ := hs
          by_cases hs0 : s = ""
          · exact ⟨0, by simp [countInt, pyEqEmptyStr, hs0]⟩
          · exact ⟨n, by simp [countInt, pyEqEmptyStr, hs0, pyInt, hn]⟩
      | pynone => exact absurd hc (by simp)

theorem countOk_of_wellTypedRule (r : BlockRule) (h : wellTypedRule r = true) :
    countOk r = true := by
  unfold wellTypedRule at h
  simp only [Bool.and_eq_true] at h
  obtain ⟨⟨_, _⟩, hcnt⟩ := h
  unfold countOk
  cases hr : r.Count with
  | none => rfl
  | some v =>
    rw [hr] at hcnt
    cases v with
    | int n => rfl
    | str s => exact absurd hcnt (by simp)
    | pynone => exact absurd hcnt (by simp)

theorem processBlock_ok (device_no block_no : Nat) (node_no : Int) (idx : Nat)
    (rule : BlockRule) (func_rules : List (String × FuncRule)) (st : FState)
    (hc : countOk rule = true) :
    ∃ recs st', processBlock device_no block_no node_no idx rule func_rules st =
      .ok (recs, st') := by
  by_cases hg : (pyEqZero (normEnable rule) || pyEqEmptyStr (funcVal rule)) = true
  · exact ⟨_, _, processBlock_inert device_no block_no node_no idx rule func_rules st hg⟩
  · simp only [Bool.or_eq_true, not_or, Bool.not_eq_true] at hg
    obtain ⟨hE, hF⟩ := hg
    obtain ⟨c, hC⟩ := countInt_ok_of_countOk rule hc
    exact ⟨_, _, processBlock_active device_no block_no node_no idx rule func_rules
      st c hE hF hC⟩

theorem runBlocks_ok (device_no : Nat) (node_no : Int)
    (block_rules : List (Nat × BlockRule)) (func_rules : List (String × FuncRule))
    (bs : List Nat) :
    ∀ (idx : Nat) (st : FState),
    (∀ b ∈ bs, ∃ r, dictGet b block_rules = Option.some r ∧ countOk r = true) →
    ∃ recs idx' st', runBlocks device_no node_no block_rules func_rules bs idx st =
      .ok (recs, idx', st') := by
  induction bs with
  | nil => intro idx st _; exact ⟨[], idx, st, rfl⟩
  | cons b bs ih =>
    intro idx st hall
    obtain ⟨rule, hR, hOk⟩ := hall b (List.mem_cons_self b bs)
    obtain ⟨recs₁, st₁, hP⟩ := processBlock_ok device_no b node_no idx rule
      func_rules st hOk
    obtain ⟨recs₂, idx₂, st₂, hT⟩ := ih (idx + 1) st₁
      (fun b' hb' => hall b' (List.mem_cons_of_mem b hb'))
    exact ⟨recs₁ ++ recs₂, idx₂, st₂, by simp only [runBlocks, hR, hP, hT]⟩

theorem runDevices_ok (blocks : Nat) (node_seq : List Int)
    (block_rules : List (Nat × BlockRule)) (func_rules : List (String × FuncRule))
    (ds : List Nat) :
    ∀ (idx : Nat) (st : FState),
    (∀ d ∈ ds, d - 1 < node_seq.length) →
    (∀ b ∈ natsFrom 1 blocks, ∃ r, dictGet b block_rules = Option.some r ∧
      countOk r = true) →
    ∃ recs idx' st', runDevices blocks node_seq block_rules func_rules ds idx st =
      .ok (recs, idx', st') := by
  induction ds with
  | nil => intro idx st _ _; exact ⟨[], idx, st, rfl⟩
  | cons d ds ih =>
    intro idx st hnodes hblocks
    have hd : d - 1 < node_seq.length := hnodes d (List.mem_cons_self d ds)
    have hN : node_seq[d - 1]? = Option.some node_seq[d - 1] :=
      List.getElem?_eq_getElem hd
    obtain ⟨recs₁, idx₁, st₁, hB⟩ := runBlocks_ok d node_seq[d - 1] block_rules
      func_rules (natsFrom 1 blocks) idx st hblocks
    obtain ⟨recs₂, idx₂, st₂, hT⟩ := ih idx₁ st₁
      (fun d' hd' => hnodes d' (List.mem_cons_of_mem d hd')) hblocks
    exact ⟨recs₁ ++ recs₂, idx₂, st₂, by simp only [runDevices, hN, hB, hT]⟩

theorem runDevices_len (blocks : Nat) (node_seq : List Int)
    (block_rules : List (Nat × BlockRule)) (func_rules : List (String × FuncRule))
    (ds : List Nat) (idx : Nat) (st : FState) (recs : List Record) (idx' : Nat)
    (st' : FState)
    (h : runDevices blocks node_seq block_rules func_rules ds idx st =
      .ok (recs, idx', st')) : recs.length = 8 * (ds.length * blocks) := by
  have hm := congrArg List.length
    (runDevices_spec blocks node_seq block_rules func_rules ds idx st recs idx' st' h).1
  simpa [length_paramsFrom] using hm

/-- A run whose device list contains a device ordinal past the end of the
node list never returns rows: line 27 raises before the traversal finishes. -/
theorem runDevices_short_node_err (blocks : Nat) (node_seq : List Int)
    (block_rules : List (Nat × BlockRule)) (func_rules : List (String × FuncRule))
    (ds : List Nat) :
    ∀ (idx : Nat) (st : FState),
    (∃ d ∈ ds, node_seq[d - 1]? = Option.none) →
    ∀ res, runDevices blocks node_seq block_rules func_rules ds idx st ≠ .ok res := by
  induction ds with
  | nil =>
    intro idx st hex res h
    obtain ⟨d, hd, _⟩ := hex
    simp at hd
  | cons d ds ih =>
    intro idx st hex res h
    cases hN : node_seq[d - 1]? with
    | none =>
      simp only [runDevices, hN] at h
      exact Except.noConfusion h
    | some node_no =>
      cases hB : runBlocks d node_no block_rules func_rules (natsFrom 1 blocks) idx st with
      | error e =>
        simp only [runDevices, hN, hB] at h
        exact Except.noConfusion h
      | ok p =>
        obtain ⟨recs₁, idx₁, st₁⟩ := p
        cases hT : runDevices blocks node_seq block_rules func_rules ds idx₁ st₁ with
        | error e =>
          simp only [runDevices, hN, hB, hT] at h
          exact Except.noConfusion h
        | ok q =>
          obtain ⟨d₀, hd₀, hnone⟩ := hex
          cases List.mem_cons.mp hd₀ with
          | inl hd0 =>
            subst hd0
            rw [hN] at hnone
            exact Option.noConfusion hnone
          | inr hd0 =>
            exact ih idx₁ st₁ ⟨d₀, hd0, hnone⟩ q hT

/-! ### Claim C1 -/

/-- Demo configuration for C1: two devices, two blocks per device, both
blocks enabled with function "4", count 3, rule `{start:0, offset:10}`. -/
def c1Rule : BlockRule :=
  ⟨Option.some (.int 1), Option.some (.str "4"), Option.some (.int 100),
   Option.some (.int 3)⟩

def c1Funcs : List (String × FuncRule) := [("4", ⟨0, 10⟩)]

def c1Blocks : List (Nat × BlockRule) := [(1, c1Rule), (2, c1Rule)]

def c1Rows : List Record :=
  (build_dataframe 2 2 8 [26, 27] c1Funcs c1Blocks).toOption.getD []

/-- C1 is false on the code: in the run with two devices and two enabled
blocks of function "4" per device, the occurrence stream of "4" is
`(1,0,3), (1,3,3), (2,16,3), (2,29,3)`. The fourth occurrence is on device 2
but is NOT the first occurrence of "4" on device 2, yet its address is
29 = 16 + 3 + 10 — the offset was applied — whereas the claim demands
29 = 16 + 3. -/
theorem c1_counterexample :
    Except.map (occList "4") (build_dataframe 2 2 8 [26, 27] c1Funcs c1Blocks) =
      .ok [(1, 0, 3), (1, 3, 3), (2, 16, 3), (2, 29, 3)] ∧
    (29 : Int) ≠ 16 + 3 := ⟨rfl, by decide⟩

/-- C1 (amended): for every function id `f` and every enabled occurrence of
`f` after its first in the run, the computed address equals the previous
occurrence's address plus the previous occurrence's stored count, with
`func_rules[f].offset` added on EVERY such occurrence whose `device_no > 1`
(lines 64-66) — not merely on `f`'s first occurrence on that device. -/
theorem c1_offset_on_every_later_device_occurrence
    (devices blocks rows_per_block : Nat) (node_seq : List Int)
    (func_rules : List (String × FuncRule)) (block_rules : List (Nat × BlockRule))
    (rows : List Record) (f : String) (k d₁ d₂ : Nat) (a₁ a₂ c₁ c₂ : Int)
    (hrun : build_dataframe devices blocks rows_per_block node_seq func_rules
      block_rules = .ok rows)
    (h1 : (occList f rows)[k]? = Option.some (d₁, a₁, c₁))
    (h2 : (occList f rows)[k + 1]? = Option.some (d₂, a₂, c₂)) :
    a₂ = a₁ + c₁ +
      (if 1 < d₂ then ((dictGet f func_rules).getD ⟨0, 10⟩).offset else 0) := by
  have hchain := build_dataframe_chain devices blocks rows_per_block node_seq
    func_rules block_rules rows f hrun
  have hadj := occChain_adjacent ((dictGet f func_rules).getD ⟨0, 10⟩)
    (occList f rows) Option.none k d₁ d₂ a₁ a₂ c₁ c₂ hchain h1 h2
  rw [hadj]
  by_cases hd : 1 < d₂ <;> simp [chainStep, hd]

theorem c1_offset_on_every_later_device_occurrence_witness :
    (29 : Int) = 16 + 3 +
      (if 1 < 2 then ((dictGet "4" c1Funcs).getD ⟨0, 10⟩).offset else 0) :=
  c1_offset_on_every_later_device_occurrence 2 2 8 [26, 27] c1Funcs c1Blocks
    c1Rows "4" 2 2 2 16 29 3 3 rfl rfl rfl

/-! ### Claim C2 -/

/-- C2 is false on the code: a node list LONGER than the device count
(devices = 1, node list of length 2) is not rejected — the run succeeds and
emits 8 records, although the lengths differ. -/
theorem c2_counterexample :
    Except.map List.length
      (build_dataframe 1 1 8 [26, 27] []
        [(1, ⟨Option.some (.int 0), Option.none, Option.none, Option.none⟩)]) =
      .ok 8 := rfl

/-- C2 (amended): only a node list SHORTER than the device count makes the
generation fail — with an index error at line 27, not a dedicated
configuration error — and then no record list is ever returned; a longer
node list is silently accepted. -/
theorem c2_short_node_list_yields_no_rows (devices blocks rows_per_block : Nat)
    (node_seq : List Int) (func_rules : List (String × FuncRule))
    (block_rules : List (Nat × BlockRule))
    (h : node_seq.length < devices) :
    ∀ rows, build_dataframe devices blocks rows_per_block node_seq func_rules
      block_rules ≠ .ok rows := by
  intro rows hok
  obtain ⟨idx', st', hRD⟩ := build_dataframe_ok_elim devices blocks rows_per_block
    node_seq func_rules block_rules rows hok
  refine runDevices_short_node_err blocks node_seq block_rules func_rules
    (natsFrom 1 devices) 0 ⟨[], []⟩ ?_ (rows, idx', st') hRD
  refine ⟨node_seq.length + 1, ?_, ?_⟩
  · rw [mem_natsFrom]
    omega
  · exact List.getElem?_eq_none (by omega)

theorem c2_short_node_list_yields_no_rows_witness :
    ([26] : List Int).length < 2 ∧
      build_dataframe 2 1 8 [26] []
        [(1, ⟨Option.some (.int 0), Option.none, Option.none, Option.none⟩)] ≠
        .ok [] :=
  ⟨by decide,
   c2_short_node_list_yields_no_rows 2 1 8 [26] []
     [(1, ⟨Option.some (.int 0), Option.none, Option.none, Option.none⟩)]
     (by decide) []⟩

/-! ### Claim C3 -/

/-- C3: for `devices=2, blocks_per_device=1, node_numbers=[26,27],
block_rules={1:{enable:1, func:"4", devaddr:100, count:3}},
func_rules={"4":{start:0, offset:10}}`, the `IntAddress` config value is 0
for device 1 block 1 and 13 = 0 + 3 + 10 for device 2 block 1. -/
theorem c3_example_intaddresses :
    Except.map (fun rows =>
        ((rows[1]?).map (fun r => (r.parameter, r.config_value)),
         (rows[9]?).map (fun r => (r.parameter, r.config_value))))
      (build_dataframe 2 1 8 [26, 27] [("4", ⟨0, 10⟩)]
        [(1, ⟨Option.some (.int 1), Option.some (.str "4"), Option.some (.int 100),
          Option.some (.int 3)⟩)]) =
    .ok (Option.some ("MCM.CONFIG.Port1MasterCmd[0].IntAddress", .int 0),
         Option.some ("MCM.CONFIG.Port1MasterCmd[1].IntAddress", .int 13)) := rfl

/-! ### Claim C4 -/

/-- C4: a disabled block (normalized `enable == 0`) renders `IntAddress`,
`Func`, `DevAddress` and `Count` as the empty sentinel, leaves the
per-function running state exactly as it was, and consumes no address. -/
theorem c4_disabled_block_inert (device_no block_no : Nat) (node_no : Int)
    (idx : Nat) (rule : BlockRule) (func_rules : List (String × FuncRule))
    (st : FState) (h : normEnable rule = .int 0) :
    processBlock device_no block_no node_no idx rule func_rules st =
      .ok ([⟨device_no, block_no, node_no, mkParam idx "Enable", .int 0⟩,
            ⟨device_no, block_no, node_no, mkParam idx "IntAddress", .str ""⟩,
            ⟨device_no, block_no, node_no, mkParam idx "PollInt", .str ""⟩,
            ⟨device_no, block_no, node_no, mkParam idx "Count", .str ""⟩,
            ⟨device_no, block_no, node_no, mkParam idx "Swap", .str ""⟩,
            ⟨device_no, block_no, node_no, mkParam idx "Node", .int node_no⟩,
            ⟨device_no, block_no, node_no, mkParam idx "Func", .str ""⟩,
            ⟨device_no, block_no, node_no, mkParam idx "DevAddress", .str ""⟩],
           st) := by
  have hz : pyEqZero (normEnable rule) = true := by rw [h]; rfl
  rw [processBlock_inert device_no block_no node_no idx rule func_rules st
    (by rw [hz]; rfl)]
  simp [funcVal, countVal, devaddrVal, hz, h, pyEqZero]

theorem c4_disabled_block_inert_witness :
    normEnable ⟨Option.some (.str ""), Option.some (.str "4"),
      Option.some (.int 7), Option.some (.int 9)⟩ = .int 0 ∧
    processBlock 1 2 26 5 ⟨Option.some (.str ""), Option.some (.str "4"),
        Option.some (.int 7), Option.some (.int 9)⟩ [("4", ⟨0, 10⟩)] ⟨[], []⟩ =
      .ok ([⟨1, 2, 26, mkParam 5 "Enable", .int 0⟩,
            ⟨1, 2, 26, mkParam 5 "IntAddress", .str ""⟩,
            ⟨1, 2, 26, mkParam 5 "PollInt", .str ""⟩,
            ⟨1, 2, 26, mkParam 5 "Count", .str ""⟩,
            ⟨1, 2, 26, mkParam 5 "Swap", .str ""⟩,
            ⟨1, 2, 26, mkParam 5 "Node", .int 26⟩,
            ⟨1, 2, 26, mkParam 5 "Func", .str ""⟩,
            ⟨1, 2, 26, mkParam 5 "DevAddress", .str ""⟩],
           ⟨[], []⟩) :=
  ⟨rfl,
   c4_disabled_block_inert 1 2 26 5
     ⟨Option.some (.str ""), Option.some (.str "4"), Option.some (.int 7),
      Option.some (.int 9)⟩ [("4", ⟨0, 10⟩)] ⟨[], []⟩ rfl⟩

/-! ### Claim C5 -/

/-- C5: across any successful run, the parameter names are exactly the 8
template fields of the global block indices 0, 1, ..., devices×blocks − 1 in
order: the embedded index is zero-based, increases by exactly 1 per
(device, block) pair with no gaps or repeats, and all 8 records of a block
share its index. -/
theorem c5_global_block_index_sequence (devices blocks rows_per_block : Nat)
    (node_seq : List Int) (func_rules : List (String × FuncRule))
    (block_rules : List (Nat × BlockRule)) (rows : List Record)
    (h : build_dataframe devices blocks rows_per_block node_seq func_rules
      block_rules = .ok rows) :
    rows.map (fun r => r.parameter) = paramsFrom 0 (devices * blocks) := by
  obtain ⟨idx', st', hRD⟩ := build_dataframe_ok_elim devices blocks rows_per_block
    node_seq func_rules block_rules rows h
  have hs := (runDevices_spec blocks node_seq block_rules func_rules
    (natsFrom 1 devices) 0 ⟨[], []⟩ rows idx' st' hRD).1
  rwa [length_natsFrom] at hs

def c5Blocks : List (Nat × BlockRule) :=
  [(1, ⟨Option.some (.int 1), Option.some (.str "4"), Option.none,
        Option.some (.int 3)⟩),
   (2, ⟨Option.some (.int 0), Option.none, Option.none, Option.none⟩)]

def c5Rows : List Record :=
  (build_dataframe 2 2 8 [26, 27] [("4", ⟨0, 10⟩)] c5Blocks).toOption.getD []

theorem c5_global_block_index_sequence_witness :
    build_dataframe 2 2 8 [26, 27] [("4", ⟨0, 10⟩)] c5Blocks = .ok c5Rows ∧
    c5Rows.map (fun r => r.parameter) = paramsFrom 0 (2 * 2) :=
  ⟨rfl,
   c5_global_block_index_sequence 2 2 8 [26, 27] [("4", ⟨0, 10⟩)] c5Blocks
     c5Rows rfl⟩

/-! ### Claim C6 -/

/-- C6: for valid inputs — node list length equal to the device count and a
well-typed block rule for every block ordinal `1..blocks` — the run succeeds
and emits exactly `devices × blocks × 8` records. -/
theorem c6_record_count (devices blocks rows_per_block : Nat)
    (node_seq : List Int) (func_rules : List (String × FuncRule))
    (block_rules : List (Nat × BlockRule))
    (h : validInputs devices blocks node_seq block_rules = true) :
    ∃ rows, build_dataframe devices blocks rows_per_block node_seq func_rules
        block_rules = .ok rows ∧
      rows.length = devices * blocks * 8 := by
  unfold validInputs at h
  simp only [Bool.and_eq_true, decide_eq_true_eq, List.all_eq_true] at h
  obtain ⟨hlen, hall⟩ := h
  have hblocks : ∀ b ∈ natsFrom 1 blocks, ∃ r, dictGet b block_rules =
      Option.some r ∧ countOk r = true := by
    intro b hb
    have hb' := hall b hb
    cases hR : dictGet b block_rules with
    | none => rw [hR] at hb'; exact absurd hb' (by simp)
    | some r =>
      rw [hR] at hb'
      exact ⟨r, rfl, countOk_of_wellTypedRule r hb'⟩
  have hnodes : ∀ d ∈ natsFrom 1 devices, d - 1 < node_seq.length := by
    intro d hd
    rw [mem_natsFrom] at hd
    omega
  obtain ⟨recs, idx', st', hRD⟩ := runDevices_ok blocks node_seq block_rules
    func_rules (natsFrom 1 devices) 0 ⟨[], []⟩ hnodes hblocks
  refine ⟨recs, by simp only [build_dataframe, hRD], ?_⟩
  have hl := runDevices_len blocks node_seq block_rules func_rules
    (natsFrom 1 devices) 0 ⟨[], []⟩ recs idx' st' hRD
  rw [length_natsFrom] at hl
  rw [hl]
  ring

theorem c6_record_count_witness :
    validInputs 1 1 [26]
      [(1, ⟨Option.some (.int 1), Option.some (.str "4"), Option.none,
        Option.some (.int 2)⟩)] = true ∧
    ∃ rows, build_dataframe 1 1 8 [26] []
        [(1, ⟨Option.some (.int 1), Option.some (.str "4"), Option.none,
          Option.some (.int 2)⟩)] = .ok rows ∧
      rows.length = 1 * 1 * 8 :=
  ⟨rfl,
   c6_record_count 1 1 8 [26] []
     [(1, ⟨Option.some (.int 1), Option.some (.str "4"), Option.none,
       Option.some (.int 2)⟩)] rfl⟩

/-! ### Claim C7 -/

/-- C7: the very first enabled occurrence of a function id `f` across the
whole run receives exactly `func_rules[f].start` as its computed address,
with no offset applied, whatever its device ordinal. -/
theorem c7_first_occurrence_gets_start (devices blocks rows_per_block : Nat)
    (node_seq : List Int) (func_rules : List (String × FuncRule))
    (block_rules : List (Nat × BlockRule)) (rows : List Record) (f : String)
    (d : Nat) (a c : Int)
    (hrun : build_dataframe devices blocks rows_per_block node_seq func_rules
      block_rules = .ok rows)
    (h0 : (occList f rows)[0]? = Option.some (d, a, c)) :
    a = ((dictGet f func_rules).getD ⟨0, 10⟩).start := by
  have hchain := build_dataframe_chain devices blocks rows_per_block node_seq
    func_rules block_rules rows f hrun
  have hz := occChain_get_zero ((dictGet f func_rules).getD ⟨0, 10⟩) Option.none
    (occList f rows) d a c hchain h0
  simpa [chainStep] using hz

def c7Funcs : List (String × FuncRule) := [("4", ⟨5, 10⟩)]

def c7Rows : List Record :=
  (build_dataframe 1 1 8 [26] c7Funcs
    [(1, ⟨Option.some (.int 1), Option.some (.str "4"), Option.none,
      Option.some (.int 3)⟩)]).toOption.getD []

theorem c7_first_occurrence_gets_start_witness :
    build_dataframe 1 1 8 [26] c7Funcs
      [(1, ⟨Option.some (.int 1), Option.some (.str "4"), Option.none,
        Option.some (.int 3)⟩)] = .ok c7Rows ∧
    (occList "4" c7Rows)[0]? = Option.some (1, 5, 3) ∧
    (5 : Int) = ((dictGet "4" c7Funcs).getD ⟨0, 10⟩).start :=
  ⟨rfl, rfl,
   c7_first_occurrence_gets_start 1 1 8 [26] c7Funcs
     [(1, ⟨Option.some (.int 1), Option.some (.str "4"), Option.none,
       Option.some (.int 3)⟩)] c7Rows "4" 1 5 3 rfl rfl⟩

/-! ### Claim C8 -/

/-- C8: an enabled block whose function id has no entry in `func_rules` is
not an error: the run behaves exactly as if the default rule
`{start:0, offset:10}` were registered for that id, and the block's
processing succeeds (given a convertible count). -/
theorem c8_unknown_func_defaults (device_no block_no : Nat) (node_no : Int)
    (idx : Nat) (rule : BlockRule) (func_rules : List (String × FuncRule))
    (st : FState)
    (hmiss : dictGet (pyStr (funcVal rule)) func_rules = Option.none)
    (hc : countOk rule = true) :
    processBlock device_no block_no node_no idx rule func_rules st =
      processBlock device_no block_no node_no idx rule
        ((pyStr (funcVal rule), ⟨0, 10⟩) :: func_rules) st ∧
    ∃ recs st', processBlock device_no block_no node_no idx rule func_rules st =
      .ok (recs, st') := by
  constructor
  · simp [processBlock, hmiss, dictGet]
  · exact processBlock_ok device_no block_no node_no idx rule func_rules st hc

def c8Rule : BlockRule :=
  ⟨Option.some (.int 1), Option.some (.str "9"), Option.none,
   Option.some (.int 2)⟩

theorem c8_unknown_func_defaults_witness :
    dictGet (pyStr (funcVal c8Rule)) ([] : List (String × FuncRule)) =
      Option.none ∧
    countOk c8Rule = true ∧
    (processBlock 1 1 26 0 c8Rule [] ⟨[], []⟩ =
      processBlock 1 1 26 0 c8Rule [(pyStr (funcVal c8Rule), ⟨0, 10⟩)] ⟨[], []⟩ ∧
     ∃ recs st', processBlock 1 1 26 0 c8Rule [] ⟨[], []⟩ = .ok (recs, st')) :=
  ⟨rfl, rfl, c8_unknown_func_defaults 1 1 26 0 c8Rule [] ⟨[], []⟩ rfl rfl⟩

/-! ### Claim C9 -/

/-- C9: the generated record sequence is a deterministic function of the
five inputs — two invocations on equal inputs return equal results — and
each invocation starts from the freshly created empty function state
`⟨[], []⟩` of lines 21-24; the embedding is pure, mirroring that
`prev_intaddr`/`prev_count` are locals of `build_dataframe` and no state
survives between calls. -/
theorem c9_deterministic (devices blocks rows_per_block : Nat)
    (node_seq : List Int) (func_rules : List (String × FuncRule))
    (block_rules : List (Nat × BlockRule))
    (devices' blocks' rows_per_block' : Nat) (node_seq' : List Int)
    (func_rules' : List (String × FuncRule))
    (block_rules' : List (Nat × BlockRule))
    (h1 : devices = devices') (h2 : blocks = blocks')
    (h3 : rows_per_block = rows_per_block') (h4 : node_seq = node_seq')
    (h5 : func_rules = func_rules') (h6 : block_rules = block_rules') :
    build_dataframe devices blocks rows_per_block node_seq func_rules
        block_rules =
      build_dataframe devices' blocks' rows_per_block' node_seq' func_rules'
        block_rules' ∧
    build_dataframe devices blocks rows_per_block node_seq func_rules
        block_rules =
      (match runDevices blocks node_seq block_rules func_rules
          (natsFrom 1 devices) 0 ⟨[], []⟩ with
       | .error e => .error e
       | .ok (rows, _, _) => .ok rows) := by
  subst h1; subst h2; subst h3; subst h4; subst h5; subst h6
  exact ⟨rfl, rfl⟩

theorem c9_deterministic_witness :
    build_dataframe 1 1 8 [26] [] [(1, ⟨Option.some (.int 0), Option.none,
        Option.none, Option.none⟩)] =
      build_dataframe 1 1 8 [26] [] [(1, ⟨Option.some (.int 0), Option.none,
        Option.none, Option.none⟩)] ∧
    build_dataframe 1 1 8 [26] [] [(1, ⟨Option.some (.int 0), Option.none,
        Option.none, Option.none⟩)] =
      (match runDevices 1 [26] [(1, ⟨Option.some (.int 0), Option.none,
          Option.none, Option.none⟩)] [] (natsFrom 1 1) 0 ⟨[], []⟩ with
       | .error e => .error e
       | .ok (rows, _, _) => .ok rows) :=
  c9_deterministic 1 1 8 [26] []
    [(1, ⟨Option.some (.int 0), Option.none, Option.none, Option.none⟩)]
    1 1 8 [26] []
    [(1, ⟨Option.some (.int 0), Option.none, Option.none, Option.none⟩)]
    rfl rfl rfl rfl rfl rfl

/-! ### Claim C10 -/

/-- C10: an enabled block whose `Func` value is the empty string renders
`IntAddress` as the empty sentinel and leaves the function state untouched,
exactly like a disabled block — while its `Enable`, `Node`, `DevAddress` and
`Count` records still carry their configured values. -/
theorem c10_enabled_empty_func (device_no block_no : Nat) (node_no : Int)
    (idx : Nat) (rule : BlockRule) (func_rules : List (String × FuncRule))
    (st : FState)
    (hEn : pyEqZero (normEnable rule) = false)
    (hF : rule.Func = Option.some (.str "")) :
    processBlock device_no block_no node_no idx rule func_rules st =
      .ok ([⟨device_no, block_no, node_no, mkParam idx "Enable", normEnable rule⟩,
            ⟨device_no, block_no, node_no, mkParam idx "IntAddress", .str ""⟩,
            ⟨device_no, block_no, node_no, mkParam idx "PollInt", .str ""⟩,
            ⟨device_no, block_no, node_no, mkParam idx "Count",
              rule.Count.getD (.str "")⟩,
            ⟨device_no, block_no, node_no, mkParam idx "Swap", .str ""⟩,
            ⟨device_no, block_no, node_no, mkParam idx "Node", .int node_no⟩,
            ⟨device_no, block_no, node_no, mkParam idx "Func", .str ""⟩,
            ⟨device_no, block_no, node_no, mkParam idx "DevAddress",
              rule.DevAddress.getD (.str "")⟩],
           st) := by
  have hfv : funcVal rule = .str "" := by simp [funcVal, hEn, hF]
  have hg : (pyEqZero (normEnable rule) || pyEqEmptyStr (funcVal rule)) = true := by
    simp [hEn, hfv, pyEqEmptyStr]
  rw [processBlock_inert device_no block_no node_no idx rule func_rules st hg]
  simp [countVal, devaddrVal, hEn, hfv]

def c10Rule : BlockRule :=
  ⟨Option.some (.int 2), Option.some (.str ""), Option.some (.int 7),
   Option.some (.int 9)⟩

theorem c10_enabled_empty_func_witness :
    pyEqZero (normEnable c10Rule) = false ∧
    c10Rule.Func = Option.some (.str "") ∧
    processBlock 1 1 26 0 c10Rule [("4", ⟨0, 10⟩)] ⟨[], []⟩ =
      .ok ([⟨1, 1, 26, mkParam 0 "Enable", normEnable c10Rule⟩,
            ⟨1, 1, 26, mkParam 0 "IntAddress", .str ""⟩,
            ⟨1, 1, 26, mkParam 0 "PollInt", .str ""⟩,
            ⟨1, 1, 26, mkParam 0 "Count", c10Rule.Count.getD (.str "")⟩,
            ⟨1, 1, 26, mkParam 0 "Swap", .str ""⟩,
            ⟨1, 1, 26, mkParam 0 "Node", .int 26⟩,
            ⟨1, 1, 26, mkParam 0 "Func", .str ""⟩,
            ⟨1, 1, 26, mkParam 0 "DevAddress", c10Rule.DevAddress.getD (.str "")⟩],
           ⟨[], []⟩) :=
  ⟨rfl, rfl,
   c10_enabled_empty_func 1 1 26 0 c10Rule [("4", ⟨0, 10⟩)] ⟨[], []⟩ rfl rfl⟩

end MCM
